import Mathlib

/-!
Shallow embedding of the `I18n` controller from `src/js/i18n.js` (the richer
variant; `src/unnamed/part_000` holds two earlier near-duplicates).  JavaScript
strings are modelled as Lean `String`s, with the JS string operations the code
uses (`split`, `toLowerCase`, `startsWith`, leading-slash `replace`) defined
over the character list `String.data`.  JSON translation tables are modelled by
the inductive `JValue` (string leaves and string-keyed objects); JS `undefined`
is `Option.none`.  DOM state (elements, head links) is modelled by explicit
structures, and the browser effects of `changeLanguage` (storage writes,
translation loads, navigation) are recorded in an explicit `Effects` record.
Not modelled: numeric/`length` indexing into JS strings (no claim touches it)
and the DOM re-application calls inside `loadTranslations`, which are modelled
separately by `applyTranslations`, `updateInternalLinks` and `setupHrefLang`.
-/

namespace AudioGrabI18n

/-- JS `String.prototype.split` with a one-character separator, over char
lists; the accumulator holds the current piece reversed. -/
def splitCharAux (sep : Char) : List Char → List Char → List (List Char)
  | [], acc => [acc.reverse]
  | c :: rest, acc =>
    if c = sep then acc.reverse :: splitCharAux sep rest []
    else splitCharAux sep rest (c :: acc)

/-- JS `s.split(sep)` for a single-character separator. -/
def jsSplit (sep : Char) (s : String) : List String :=
  (splitCharAux sep s.data []).map String.mk

/-- JS `s.toLowerCase()` (ASCII-adequate for the language codes involved). -/
def jsToLowerCase (s : String) : String :=
  String.mk (s.data.map Char.toLower)

/-- JS `s.startsWith(pre)`. -/
def jsStartsWith (s pre : String) : Bool :=
  pre.data.isPrefixOf s.data

/-- JS `s.replace(/^\x2f+/, '')`: drop leading slashes. -/
def dropLeadingSlashes (s : String) : String :=
  String.mk (s.data.dropWhile (fun c => c = '/'))

/-- JS truthiness of a nullable string (`null`/`undefined` and `''` are falsy). -/
def jsTruthyS : Option String → Bool
  | none => false
  | some s => s ≠ ""

/-- JS `a || b` on nullable strings. -/
def jsOrStr (a b : Option String) : Option String :=
  if jsTruthyS a then a else b

/-- A JSON value as used by the translation tables: string leaves and
string-keyed objects. -/
inductive JValue where
  | str : String → JValue
  | obj : List (String × JValue) → JValue
deriving Repr

/-- JS truthiness of a `JValue` (objects are truthy, `''` is falsy). -/
def jvTruthy : JValue → Bool
  | .str s => s ≠ ""
  | .obj _ => true

/-- JS truthiness of a possibly-`undefined` `JValue`. -/
def jsTruthyO : Option JValue → Bool
  | none => false
  | some v => jvTruthy v

/-- First-match property lookup in a JS object literal. -/
def jsLookup : List (String × JValue) → String → Option JValue
  | [], _ => none
  | (k, v) :: rest, key => if k = key then some v else jsLookup rest key

/-- JS property access `v[k]`: defined for objects; accessing a (non-numeric,
non-`length`) property of a string yields `undefined`. -/
def jsIndex : JValue → String → Option JValue
  | .obj fields, k => jsLookup fields k
  | .str _, _ => none

/-- JS property access on a possibly-`undefined` value. -/
def jsIndexO : Option JValue → String → Option JValue
  | some v, k => jsIndex v k
  | none, _ => none

/-- JS string coercion of a `JValue` (for assignment into DOM string slots). -/
def jsToString : JValue → String
  | .str s => s
  | .obj _ => "[object Object]"

/-- JS string coercion of a possibly-`undefined` value. -/
def jsToStringO : Option JValue → String
  | some v => jsToString v
  | none => "undefined"

/-- `getTranslation(key)`: source line
`return key.split('.').reduce((obj, k) => obj && obj[k], this.translations);`. -/
def getTranslation (translations : JValue) (key : String) : Option JValue :=
  (jsSplit '.' key).foldl
    (fun obj k => if jsTruthyO obj then jsIndexO obj k else obj)
    (some translations)

/-- The built-in minimal fallback table installed when loading `en` fails:
`{ 'nav.home': 'Home', 'nav.audiograb': 'AudioGrab', 'nav.privacy': 'Privacy' }`.
Its keys are flat dotted strings at the top level. -/
def fallbackTranslations : JValue :=
  .obj [("nav.home", .str "Home"),
        ("nav.audiograb", .str "AudioGrab"),
        ("nav.privacy", .str "Privacy")]

/-- Does a top-level key exist in a table? -/
def hasKey (v : JValue) (k : String) : Bool :=
  (jsIndex v k).isSome

/-- Number of top-level entries of a table. -/
def tableSize : JValue → Nat
  | .str _ => 0
  | .obj fields => fields.length

/-- `getBrowserLanguage()`: the browser API is `none` when accessing it throws
(the `catch` path); otherwise it reports `navigator.language` and
`navigator.userLanguage`, each possibly absent. -/
def getBrowserLanguage (api : Option (Option String × Option String)) : String :=
  match api with
  | none => "en"
  | some (navLang, userLang) =>
    let lang := jsToLowerCase ((jsOrStr (jsOrStr navLang userLang) (some "")).getD "")
    if jsStartsWith lang "es" then "es" else "en"

/-- `getLanguageFromUrl()`: find a path segment case-insensitively equal to a
supported code and return it lowercased; `none` if there is none. -/
def getLanguageFromUrl (path : String) : Option String :=
  let pathSegments := (jsSplit '/' path).filter (fun s => s.length > 0)
  match pathSegments.findIdx?
      (fun s => jsToLowerCase s == "en" || jsToLowerCase s == "es") with
  | some langIdx =>
    match pathSegments[langIdx]? with
    | some s => some (jsToLowerCase s)
    | none => none
  | none => none

/-- The constructor's language resolution:
`this.currentLang = urlLang || savedLang || browserLang || 'en';`
with `urlLang = getLanguageFromUrl()`, `savedLang = getSavedLanguage()` (the
raw persisted slot, unvalidated) and `browserLang = getBrowserLanguage()`. -/
def constructorCurrentLang (path : String) (savedLang : Option String)
    (api : Option (Option String × Option String)) : String :=
  let urlLang := getLanguageFromUrl path
  let browserLang := getBrowserLanguage api
  (jsOrStr (jsOrStr (jsOrStr urlLang savedLang) (some browserLang))
    (some "en")).getD ""

/-- `loadTranslations(lang)` reduced to its state effect: the fetch oracle
returns the parsed table on success and `none` on any failure (network error,
non-OK status, malformed body).  Returns the resulting translation table and
the list of languages fetched, in order.  On failure with `lang !== 'en'` the
source recurses once with `'en'`; on failure of `'en'` itself it installs
`fallbackTranslations`. -/
def loadTranslationsCore (fetch : String → Option JValue) (lang : String) :
    JValue × List String :=
  match fetch lang with
  | some tbl => (tbl, [lang])
  | none =>
    if h : lang = "en" then
      (fallbackTranslations, [lang])
    else
      let r := loadTranslationsCore fetch "en"
      (r.1, lang :: r.2)
termination_by if lang = "en" then 0 else 1
decreasing_by simp [h]

/-- Controller state: active language, current translation table, and the
persisted preference slot (`localStorage['didalaSoft-language']`). -/
structure I18nState where
  currentLang : String
  translations : JValue
  storage : Option String

/-- Observable browser effects of an operation. -/
structure Effects where
  storageWrites : List String
  loadsStarted : List String
  navigations : List String
deriving Repr

/-- No effects. -/
def noEffects : Effects := ⟨[], [], []⟩

/-- `saveLanguage(lang)`: write the preference slot and update `currentLang`;
when the storage write throws (`storageOk = false`) the `catch` leaves both
untouched. -/
def saveLanguage (storageOk : Bool) (st : I18nState) (lang : String) :
    I18nState × Effects :=
  if storageOk then
    ({ st with storage := some lang, currentLang := lang },
     { storageWrites := [lang], loadsStarted := [], navigations := [] })
  else (st, noEffects)

/-- `loadTranslations` as a state transformer, recording the fetches it starts. -/
def loadTranslationsSt (fetch : String → Option JValue) (st : I18nState)
    (lang : String) : I18nState × Effects :=
  let r := loadTranslationsCore fetch lang
  ({ st with translations := r.1 },
   { storageWrites := [], loadsStarted := r.2, navigations := [] })

/-- `navigateToLanguage(lang)`: rewrite the current path, replacing an existing
language segment or inserting one after the `audiograb-site` repo segment (or
at the front), then append search and hash. -/
def navigateToLanguage (path search hash : String) (lang : String) : String :=
  let segments := (jsSplit '/' path).filter (fun s => s.length > 0)
  let segments :=
    match segments.findIdx? (fun s => s == "en" || s == "es") with
    | some langIdx => segments.set langIdx lang
    | none =>
      let insertAt :=
        match segments.findIdx? (fun s => s == "audiograb-site") with
        | some repoIdx => repoIdx + 1
        | none => 0
      segments.insertIdx insertAt lang
  "/" ++ String.intercalate "/" segments ++ search ++ hash

/-- `changeLanguage(lang)`: when `lang !== this.currentLang`, persist the
preference, reload translations, and navigate; otherwise do nothing. -/
def changeLanguage (storageOk : Bool) (fetch : String → Option JValue)
    (path search hash : String) (st : I18nState) (lang : String) :
    I18nState × Effects :=
  if lang ≠ st.currentLang then
    let r1 := saveLanguage storageOk st lang
    let r2 := loadTranslationsSt fetch r1.1 lang
    (r2.1,
     { storageWrites := r1.2.storageWrites ++ r2.2.storageWrites,
       loadsStarted := r1.2.loadsStarted ++ r2.2.loadsStarted,
       navigations := r1.2.navigations ++ r2.2.navigations ++
         [navigateToLanguage path search hash lang] })
  else (st, noEffects)

/-- A DOM element as `applyTranslations` sees it: tag name, `type` property,
the two translation-key marker attributes, and the writable slots. -/
structure Element where
  tagName : String
  typeAttr : String
  dataI18n : Option String
  dataI18nTitle : Option String
  placeholder : String
  textContent : String
  contentAttr : String
  innerHTML : String
  title : String
deriving Repr, DecidableEq

/-- The body of the first `forEach` of `applyTranslations`: resolve the
`data-i18n` key and, when the result is truthy, dispatch it by element kind;
elements without the attribute are not selected and stay unchanged. -/
def applyContentTranslation (tbl : JValue) (e : Element) : Element :=
  match e.dataI18n with
  | none => e
  | some key =>
    let translation := getTranslation tbl key
    if jsTruthyO translation then
      let v := jsToStringO translation
      if e.tagName = "INPUT" ∧ e.typeAttr = "placeholder" then
        { e with placeholder := v }
      else if e.tagName = "TITLE" then
        { e with textContent := v }
      else if e.tagName = "META" then
        { e with contentAttr := v }
      else
        { e with innerHTML := v }
    else e

/-- The body of the second `forEach` of `applyTranslations`: resolve the
`data-i18n-title` key and, when truthy, set the `title` attribute. -/
def applyTitleTranslation (tbl : JValue) (e : Element) : Element :=
  match e.dataI18nTitle with
  | none => e
  | some key =>
    let translation := getTranslation tbl key
    if jsTruthyO translation then { e with title := jsToStringO translation }
    else e

/-- `applyTranslations()`: the first pass over `[data-i18n]` elements, then the
second pass over `[data-i18n-title]` elements. -/
def applyTranslations (tbl : JValue) (elements : List Element) : List Element :=
  (elements.map (applyContentTranslation tbl)).map (applyTitleTranslation tbl)

/-- A `<link>` element in the document head as `setupHrefLang` sees it. -/
structure HeadLink where
  rel : String
  hreflang : Option String
  href : String
deriving Repr, DecidableEq

/-- `setupHrefLang()`: strip the language segment from the current path to get
the language-neutral page path, remove every existing
`link[rel="alternate"][hreflang]` element, then append one alternate link per
supported language plus the `x-default` entry. -/
def setupHrefLang (path : String) (head : List HeadLink) : List HeadLink :=
  let origin := "https://didalasoft.github.io/audiograb-site"
  let p := dropLeadingSlashes path
  let segs := (jsSplit '/' p).filter (fun s => s ≠ "")
  let pageSegs :=
    match segs.findIdx? (fun s => s == "en" || s == "es") with
    | some langIdx => segs.eraseIdx langIdx
    | none => segs
  let joined := String.intercalate "/" pageSegs
  let pagePath := if joined = "" then "index.html" else joined
  let kept := head.filter (fun n => !(n.rel = "alternate" && n.hreflang.isSome))
  kept ++
    [{ rel := "alternate", hreflang := some "en",
       href := origin ++ "/en/" ++ pagePath },
     { rel := "alternate", hreflang := some "es",
       href := origin ++ "/es/" ++ pagePath },
     { rel := "alternate", hreflang := some "x-default",
       href := origin ++ "/en/" ++ pagePath }]

/-- Count of alternate links in the head carrying a given `hreflang` value. -/
def countAlt (head : List HeadLink) (lang : String) : Nat :=
  (head.filter (fun n => n.rel = "alternate" && n.hreflang == some lang)).length

/-- The known internal page filenames of `updateInternalLinks`. -/
def internalFiles : List String := ["index.html", "audiograb.html", "privacy.html"]

/-- The body of the `forEach` of `updateInternalLinks`, applied to one selected
anchor's `href` attribute: skip falsy, absolute (`http...`), fragment (`#...`)
and root-rooted (`/...`) hrefs, skip everything when the current path already
has a language segment, otherwise prefix the cleaned href with the language. -/
def processLink (lang : String) (hasLang : Bool) (href : Option String) :
    Option String :=
  match href with
  | none => none
  | some h =>
    if h = "" ∨ jsStartsWith h "http" ∨ jsStartsWith h "#" ∨ jsStartsWith h "/"
    then some h
    else if hasLang then some h
    else some (lang ++ "/" ++ dropLeadingSlashes h)

/-- `updateInternalLinks()`: the selector picks anchors whose `href` attribute
is exactly one of the known filenames; each selected link is rewritten by
`processLink` using the current language and whether the current path already
contains a (case-sensitive) language segment. -/
def updateInternalLinks (currentLang : String) (path : String)
    (links : List (Option String)) : List (Option String) :=
  let lang := (jsOrStr (jsOrStr (some currentLang) (getLanguageFromUrl path))
    (some "en")).getD ""
  let segments := (jsSplit '/' path).filter (fun s => s.length > 0)
  let hasLang := segments.contains "en" || segments.contains "es"
  links.map (fun href =>
    if (match href with
        | some h => internalFiles.contains h
        | none => false) then
      processLink lang hasLang href
    else href)

/-! ## Helper lemmas -/

/-- Splitting never yields an empty list of pieces. -/
theorem splitCharAux_ne_nil (sep : Char) :
    ∀ (l acc : List Char), splitCharAux sep l acc ≠ [] := by
  intro l
  induction l with
  | nil => intro acc; simp [splitCharAux]
  | cons c rest ih =>
    intro acc
    by_cases h : c = sep <;> simp [splitCharAux, h] <;> apply ih

/-- No piece produced by splitting contains the separator. -/
theorem splitCharAux_no_sep (sep : Char) :
    ∀ (l acc : List Char), sep ∉ acc →
      ∀ piece ∈ splitCharAux sep l acc, sep ∉ piece := by
  intro l
  induction l with
  | nil =>
    intro acc hacc piece hp
    simp [splitCharAux] at hp
    subst hp
    simpa using hacc
  | cons c rest ih =>
    intro acc hacc piece hp
    by_cases h : c = sep
    · simp [splitCharAux, h] at hp
      rcases hp with hp | hp
      · subst hp; simpa using hacc
      · exact ih [] (by simp) piece hp
    · simp [splitCharAux, h] at hp
      refine ih (c :: acc) ?_ piece hp
      intro hmem
      rcases List.mem_cons.mp hmem with h1 | h1
      · exact h h1.symm
      · exact hacc h1

/-- The key split of `getTranslation` always has a first segment, and that
segment contains no dot. -/
theorem jsSplit_head_no_dot (key : String) :
    ∃ s rest, jsSplit '.' key = s :: rest ∧ '.' ∉ s.data := by
  unfold jsSplit
  cases hc : splitCharAux '.' key.data [] with
  | nil => exact absurd hc (splitCharAux_ne_nil '.' key.data [])
  | cons a l =>
    refine ⟨String.mk a, l.map String.mk, by simp, ?_⟩
    have : a ∈ splitCharAux '.' key.data [] := by rw [hc]; exact List.mem_cons_self a l
    exact splitCharAux_no_sep '.' key.data [] (by simp) a this

/-- Once the `reduce` accumulator of `getTranslation` is `undefined`, it stays
`undefined` through the remaining segments. -/
theorem getTranslation_foldl_none (l : List String) :
    l.foldl (fun obj k => if jsTruthyO obj then jsIndexO obj k else obj) none
      = none := by
  induction l with
  | nil => rfl
  | cons a l ih => simpa [jsTruthyO] using ih

/-- Every language produced by `getLanguageFromUrl` is a supported code. -/
theorem findIdx?_get_satisfies (p : α → Bool) :
    ∀ (l : List α) (i : Nat) (a : α), l.findIdx? p = some i → l[i]? = some a →
      p a = true := by
  intro l
  induction l with
  | nil => intro i a h; simp at h
  | cons x xs ih =>
    intro i a h hget
    rw [List.findIdx?_cons] at h
    by_cases hp : p x
    · simp [hp] at h
      subst h
      simp at hget
      subst hget
      exact hp
    · simp [hp, List.findIdx?_succ] at h
      rcases h with ⟨j, hj, hi⟩
      subst hi
      simp at hget
      exact ih j a hj hget

/-- `getLanguageFromUrl` only ever reports a supported code. -/
theorem getLanguageFromUrl_supported (path u : String)
    (h : getLanguageFromUrl path = some u) : u = "en" ∨ u = "es" := by
  simp only [getLanguageFromUrl] at h
  split at h
  next i hidx =>
    split at h
    next s hget =>
      have hp := findIdx?_get_satisfies _ _ i s hidx hget
      simp at hp h
      rcases hp with hp | hp <;> rw [← h] <;> simp [hp]
    next => simp at h
  next => simp at h

/-- `getBrowserLanguage` only ever reports a supported code. -/
theorem getBrowserLanguage_supported
    (api : Option (Option String × Option String)) :
    getBrowserLanguage api = "en" ∨ getBrowserLanguage api = "es" := by
  unfold getBrowserLanguage
  cases api with
  | none => exact Or.inl rfl
  | some pair =>
    obtain ⟨navLang, userLang⟩ := pair
    by_cases h : jsStartsWith
        (jsToLowerCase ((jsOrStr (jsOrStr navLang userLang) (some "")).getD ""))
        "es" <;> simp [h]

/-! ## Claims -/

/-- C4: `getTranslation` folds the dot-separated key segments over the current
table: `"nav.home"` against `{nav:{home:"Home"}}` resolves to `"Home"`, and
against `{}` (indeed, against `{}` and any key whatsoever) it yields an
absent result rather than an error — the fold is a total function. -/
theorem getTranslation_resolves_or_absent :
    getTranslation
        (JValue.obj [("nav", JValue.obj [("home", JValue.str "Home")])])
        "nav.home" = some (JValue.str "Home")
    ∧ (∀ key : String, getTranslation (JValue.obj []) key = none) := by
  constructor
  · rfl
  · intro key
    unfold getTranslation
    obtain ⟨s, rest, hsplit, _⟩ := jsSplit_head_no_dot key
    rw [hsplit]
    simp only [List.foldl_cons, jsTruthyO, jvTruthy, jsIndexO, jsIndex,
      jsLookup, if_true]
    exact getTranslation_foldl_none rest

/-- C7: calling `changeLanguage` with the already-active language is a
complete no-op: the state is returned unchanged and no storage write, no
translation load, and no navigation is produced. -/
theorem changeLanguage_same_lang_noop (storageOk : Bool)
    (fetch : String → Option JValue) (path search hash : String)
    (st : I18nState) :
    changeLanguage storageOk fetch path search hash st st.currentLang
      = (st, noEffects) := by
  simp [changeLanguage]

/-- C2: initial resolution follows the precedence URL marker, then persisted
preference, then browser language, then `en`: a URL marker always wins; with
no URL marker and no persisted value the browser signal decides; and for every
supported code `L`, a persisted preference of `L` with no URL marker yields
`currentLang = L` whatever the browser reports. -/
theorem constructor_precedence :
    (∀ path savedLang api u, getLanguageFromUrl path = some u →
      constructorCurrentLang path savedLang api = u)
    ∧ (∀ path api, getLanguageFromUrl path = none →
      constructorCurrentLang path none api = getBrowserLanguage api)
    ∧ (∀ L, (L = "en" ∨ L = "es") → ∀ path, getLanguageFromUrl path = none →
      ∀ api, constructorCurrentLang path (some L) api = L) := by
  refine ⟨?_, ?_, ?_⟩
  · intro path savedLang api u hu
    have hsupp := getLanguageFromUrl_supported path u hu
    have hne : u ≠ "" := by rcases hsupp with h | h <;> simp [h]
    simp [constructorCurrentLang, hu, jsOrStr, jsTruthyS, hne]
  · intro path api hurl
    have hb := getBrowserLanguage_supported api
    have hne : getBrowserLanguage api ≠ "" := by
      rcases hb with h | h <;> simp [h]
    simp [constructorCurrentLang, hurl, jsOrStr, jsTruthyS, hne]
  · intro L hL path hurl api
    have hne : L ≠ "" := by rcases hL with h | h <;> simp [h]
    simp [constructorCurrentLang, hurl, jsOrStr, jsTruthyS, hne]

/-- C2 witness: a persisted `es` with no URL marker resolves to `es`. -/
theorem constructor_precedence_witness :
    constructorCurrentLang "/audiograb-site/privacy.html" (some "es")
      (some (some "en-US", none)) = "es" :=
  constructor_precedence.2.2 "es" (Or.inr rfl) "/audiograb-site/privacy.html"
    (by decide) (some (some "en-US", none))

/-- Normal form of `getBrowserLanguage` on a present primary language string:
the `|| ''` chain collapses to the string itself (an empty string already
lowercases to itself), leaving the lowercase `es`-prefix test. -/
theorem getBrowserLanguage_norm (s : String) :
    getBrowserLanguage (some (some s, none))
      = (if jsStartsWith (jsToLowerCase s) "es" then "es" else "en") := by
  by_cases hs : s = ""
  · subst hs; rfl
  · simp [getBrowserLanguage, jsOrStr, jsTruthyS, hs]

/-- The lowercase `es`-prefix test of `getBrowserLanguage`, in terms of the
first two characters of the reported string. -/
theorem jsStartsWith_es_toLower (c₁ c₂ : Char) (rest : List Char) :
    jsStartsWith (jsToLowerCase (String.mk (c₁ :: c₂ :: rest))) "es"
      = (('e' == c₁.toLower) && ('s' == c₂.toLower)) := by
  simp [jsStartsWith, jsToLowerCase, List.isPrefixOf]

/-- C5: for every browser-reported language string the normalization is total
and returns `es` exactly when the string begins with `es` in any letter case
(any region suffix allowed), `en` for every other value; the result is always
one of the two supported codes, and an absent or throwing browser API yields
`en`. -/
theorem getBrowserLanguage_es_detection :
    (∀ s : String, getBrowserLanguage (some (some s, none)) = "es" ↔
      ∃ c₁ c₂ rest, s.data = c₁ :: c₂ :: rest
        ∧ c₁.toLower = 'e' ∧ c₂.toLower = 's')
    ∧ (∀ s : String, getBrowserLanguage (some (some s, none)) = "es"
        ∨ getBrowserLanguage (some (some s, none)) = "en")
    ∧ getBrowserLanguage none = "en"
    ∧ getBrowserLanguage (some (none, none)) = "en" := by
  refine ⟨?_, ?_, rfl, rfl⟩
  · intro s
    rw [getBrowserLanguage_norm]
    obtain ⟨d⟩ := s
    match d with
    | [] => simp [jsStartsWith, jsToLowerCase, List.isPrefixOf]
    | [c₁] => simp [jsStartsWith, jsToLowerCase, List.isPrefixOf]
    | c₁ :: c₂ :: rest =>
      rw [jsStartsWith_es_toLower]
      constructor
      · intro h
        by_cases hb : (('e' == c₁.toLower) && ('s' == c₂.toLower)) = true
        · simp at hb
          exact ⟨c₁, c₂, rest, rfl, hb.1.symm, hb.2.symm⟩
        · rw [if_neg] at h
          · exact absurd h (by decide)
          · simpa using hb
      · rintro ⟨a, b, r, hd, h1, h2⟩
        have hd2 : c₁ :: c₂ :: rest = a :: b :: r := hd
        injection hd2 with e1 e2
        injection e2 with e3 _
        subst e1
        subst e3
        rw [if_pos]
        simp [h1, h2]
  · intro s
    rw [getBrowserLanguage_norm]
    by_cases hb : (jsStartsWith (jsToLowerCase s) "es") = true <;> simp [hb]

/-- C5 witness: a mixed-case regioned Spanish tag normalizes to `es`. -/
theorem getBrowserLanguage_es_detection_witness :
    getBrowserLanguage (some (some "ES-mx", none)) = "es" :=
  (getBrowserLanguage_es_detection.1 "ES-mx").mpr
    ⟨'E', 'S', ['-', 'm', 'x'], rfl, by decide, by decide⟩

/-- C3: when the fetch for a non-`en` language fails, `loadTranslations`
retries exactly once, with `en` (the attempt list is precisely
`[lang, "en"]`); and when `en` itself also fails, the resulting table is the
built-in fallback, which carries the keys `nav.home`, `nav.audiograb` and
`nav.privacy` and is not empty. -/
theorem loadTranslations_single_retry_and_fallback
    (fetch : String → Option JValue) (lang : String)
    (hfail : fetch lang = none) (hne : lang ≠ "en") :
    (loadTranslationsCore fetch lang).2 = [lang, "en"]
    ∧ (fetch "en" = none →
        (loadTranslationsCore fetch lang).1 = fallbackTranslations
        ∧ hasKey (loadTranslationsCore fetch lang).1 "nav.home" = true
        ∧ hasKey (loadTranslationsCore fetch lang).1 "nav.audiograb" = true
        ∧ hasKey (loadTranslationsCore fetch lang).1 "nav.privacy" = true
        ∧ tableSize (loadTranslationsCore fetch lang).1 ≠ 0) := by
  have h1 : loadTranslationsCore fetch lang
      = ((loadTranslationsCore fetch "en").1,
         lang :: (loadTranslationsCore fetch "en").2) := by
    rw [loadTranslationsCore]
    simp [hfail, hne]
  cases hen : fetch "en" with
  | some tbl =>
    have h2 : loadTranslationsCore fetch "en" = (tbl, ["en"]) := by
      rw [loadTranslationsCore]
      simp [hen]
    rw [h1, h2]
    exact ⟨rfl, fun hc => by simp [hen] at hc⟩
  | none =>
    have h2 : loadTranslationsCore fetch "en" = (fallbackTranslations, ["en"]) := by
      rw [loadTranslationsCore]
      simp [hen]
    rw [h1, h2]
    exact ⟨rfl, fun _ => ⟨rfl, rfl, rfl, rfl, by simp [fallbackTranslations, tableSize]⟩⟩

/-- C3 witness: with every fetch failing, loading `fr` attempts `fr` then
`en` and ends with the built-in fallback table. -/
theorem loadTranslations_single_retry_and_fallback_witness :
    (loadTranslationsCore (fun _ => none) "fr").2 = ["fr", "en"]
    ∧ (loadTranslationsCore (fun _ => none) "fr").1 = fallbackTranslations := by
  have h := loadTranslations_single_retry_and_fallback (fun _ => none) "fr" rfl
    (by decide)
  exact ⟨h.1, (h.2 rfl).1⟩

/-- C1 counterexample: `fr` is not a supported code, yet calling
`changeLanguage('fr')` from an `en` state writes `fr` to the persisted
preference slot and makes it the active language — there is no validation and
no fallback to `en` on this path. -/
theorem unsupported_code_stored_counterexample :
    ¬("fr" = "en" ∨ "fr" = "es")
    ∧ (changeLanguage true (fun _ => none) "/audiograb-site/index.html" "" ""
        { currentLang := "en", translations := JValue.obj [], storage := none }
        "fr").2.storageWrites = ["fr"]
    ∧ (changeLanguage true (fun _ => none) "/audiograb-site/index.html" "" ""
        { currentLang := "en", translations := JValue.obj [], storage := none }
        "fr").1.currentLang = "fr"
    ∧ (changeLanguage true (fun _ => none) "/audiograb-site/index.html" "" ""
        { currentLang := "en", translations := JValue.obj [], storage := none }
        "fr").1.storage = some "fr" := by
  exact ⟨by decide, rfl, rfl, rfl⟩

/-- C1 amended: the URL and browser signal readers only ever produce supported
codes, but `changeLanguage`/`saveLanguage` validate nothing: with working
storage, any code different from the active one — supported or not — is
written verbatim to the persisted slot and becomes `currentLang`. -/
theorem changeLanguage_applies_unvalidated_codes (storageOk : Bool)
    (hok : storageOk = true) (fetch : String → Option JValue)
    (path search hash : String) (st : I18nState) (lang : String)
    (hne : lang ≠ st.currentLang) :
    (changeLanguage storageOk fetch path search hash st lang).2.storageWrites
        = [lang]
    ∧ (changeLanguage storageOk fetch path search hash st lang).1.currentLang
        = lang
    ∧ (changeLanguage storageOk fetch path search hash st lang).1.storage
        = some lang
    ∧ (∀ api, getBrowserLanguage api = "en" ∨ getBrowserLanguage api = "es")
    ∧ (∀ p u, getLanguageFromUrl p = some u → u = "en" ∨ u = "es") := by
  subst hok
  refine ⟨?_, ?_, ?_, getBrowserLanguage_supported,
    fun p u => getLanguageFromUrl_supported p u⟩ <;>
    simp [changeLanguage, saveLanguage, loadTranslationsSt, hne]

/-- C1 amended witness: switching from `en` to the unsupported code `fr`
stores and applies `fr`. -/
theorem changeLanguage_applies_unvalidated_codes_witness :
    (changeLanguage true (fun _ => none) "/" "" ""
      { currentLang := "en", translations := JValue.obj [], storage := none }
      "fr").2.storageWrites = ["fr"] := by
  have h := changeLanguage_applies_unvalidated_codes true rfl (fun _ => none)
    "/" "" ""
    { currentLang := "en", translations := JValue.obj [], storage := none }
    "fr" (by decide)
  exact h.1

/-- C6: inside `applyTranslations`, for an element carrying a `data-i18n` key:
a falsy lookup leaves the element completely unchanged (and, with no title
key either, the whole pass leaves it unchanged); a truthy value goes to the
placeholder of an `INPUT` with `type == 'placeholder'`, to the text content of
a `TITLE`, to the `content` attribute of a `META`, and to the inner HTML of
every other element. -/
theorem applyContentTranslation_dispatch (tbl : JValue) (e : Element)
    (key : String) (hkey : e.dataI18n = some key) :
    (jsTruthyO (getTranslation tbl key) = false →
      applyContentTranslation tbl e = e)
    ∧ (jsTruthyO (getTranslation tbl key) = false → e.dataI18nTitle = none →
      applyTranslations tbl [e] = [e])
    ∧ (jsTruthyO (getTranslation tbl key) = true →
        ((e.tagName = "INPUT" ∧ e.typeAttr = "placeholder") →
          applyContentTranslation tbl e
            = { e with placeholder := jsToStringO (getTranslation tbl key) })
        ∧ (e.tagName = "TITLE" →
          applyContentTranslation tbl e
            = { e with textContent := jsToStringO (getTranslation tbl key) })
        ∧ (e.tagName = "META" →
          applyContentTranslation tbl e
            = { e with contentAttr := jsToStringO (getTranslation tbl key) })
        ∧ (¬(e.tagName = "INPUT" ∧ e.typeAttr = "placeholder") →
            e.tagName ≠ "TITLE" → e.tagName ≠ "META" →
          applyContentTranslation tbl e
            = { e with innerHTML := jsToStringO (getTranslation tbl key) })) := by
  refine ⟨?_, ?_, ?_⟩
  · intro hf
    simp [applyContentTranslation, hkey, hf]
  · intro hf htitle
    simp [applyTranslations, applyContentTranslation, applyTitleTranslation,
      hkey, hf, htitle]
  · intro ht
    refine ⟨?_, ?_, ?_, ?_⟩
    · intro hc
      simp [applyContentTranslation, hkey, ht, hc.1, hc.2]
    · intro hc
      simp [applyContentTranslation, hkey, ht, hc]
    · intro hc
      simp [applyContentTranslation, hkey, ht, hc]
    · intro hc1 hc2 hc3
      simp [applyContentTranslation, hkey, ht, hc1, hc2, hc3]

/-- C6 witness: a generic element with key `nav.home` against
`{nav:{home:"Home"}}` gets its inner HTML set to `Home`. -/
theorem applyContentTranslation_dispatch_witness :
    applyContentTranslation
        (JValue.obj [("nav", JValue.obj [("home", JValue.str "Home")])])
        { tagName := "A", typeAttr := "", dataI18n := some "nav.home",
          dataI18nTitle := none, placeholder := "", textContent := "",
          contentAttr := "", innerHTML := "old", title := "" }
      = { tagName := "A", typeAttr := "", dataI18n := some "nav.home",
          dataI18nTitle := none, placeholder := "", textContent := "",
          contentAttr := "", innerHTML := "Home", title := "" } := by
  have h := (applyContentTranslation_dispatch
    (JValue.obj [("nav", JValue.obj [("home", JValue.str "Home")])])
    { tagName := "A", typeAttr := "", dataI18n := some "nav.home",
      dataI18nTitle := none, placeholder := "", textContent := "",
      contentAttr := "", innerHTML := "old", title := "" }
    "nav.home" rfl).2.2 rfl
  have h4 := h.2.2.2 (by simp) (by simp) (by simp)
  exact h4.trans (by rfl)

/-- C8: with the current path carrying no language segment and current
language `es`, a relative link `privacy.html` is rewritten to
`es/privacy.html`; with a language segment already in the path the same link
is untouched; and hrefs that are absolute (`http...`), fragments (`#...`), or
root-rooted (`/...`) are never rewritten for any language and path. -/
theorem updateInternalLinks_language_prefixing :
    updateInternalLinks "es" "/audiograb-site/privacy.html"
        [some "privacy.html"] = [some "es/privacy.html"]
    ∧ updateInternalLinks "es" "/audiograb-site/es/privacy.html"
        [some "privacy.html"] = [some "privacy.html"]
    ∧ (∀ lang path h, (jsStartsWith h "http" = true ∨ jsStartsWith h "#" = true
          ∨ jsStartsWith h "/" = true) →
        updateInternalLinks lang path [some h] = [some h]) := by
  refine ⟨by decide, by decide, ?_⟩
  intro lang path h hh
  unfold updateInternalLinks
  by_cases hc : internalFiles.contains h = true
  · rcases hh with hh | hh | hh <;> simp [hc, processLink, hh]
  · simp at hc
    simp [hc]

/-- C8 witness: a fragment link is untouched. -/
theorem updateInternalLinks_language_prefixing_witness :
    updateInternalLinks "es" "/audiograb-site/index.html" [some "#features"]
      = [some "#features"] :=
  updateInternalLinks_language_prefixing.2.2 "es" "/audiograb-site/index.html"
    "#features" (Or.inr (Or.inl rfl))

/-- Alternate links surviving the removal step of `setupHrefLang` cannot
themselves match an alternate-with-hreflang selector. -/
theorem kept_filter_empty (head : List HeadLink) (q : HeadLink → Bool)
    (hq : ∀ n, q n = true → n.rel = "alternate" ∧ n.hreflang.isSome = true) :
    ((head.filter
        (fun n => !(n.rel = "alternate" && n.hreflang.isSome))).filter q)
      = [] := by
  rw [List.filter_eq_nil_iff]
  intro n hn hqn
  have hp := List.of_mem_filter hn
  obtain ⟨h1, h2⟩ := hq n hqn
  simp [h1, h2] at hp

/-- One call to `setupHrefLang` leaves exactly one `en` alternate. -/
theorem setupHrefLang_count_en (path : String) (head : List HeadLink) :
    countAlt (setupHrefLang path head) "en" = 1 := by
  unfold countAlt
  simp only [setupHrefLang]
  rw [List.filter_append, List.length_append]
  rw [kept_filter_empty]
  · simp
  · intro n hqn
    simp at hqn
    exact ⟨hqn.1, by rw [hqn.2]; rfl⟩

/-- One call to `setupHrefLang` leaves exactly one `es` alternate. -/
theorem setupHrefLang_count_es (path : String) (head : List HeadLink) :
    countAlt (setupHrefLang path head) "es" = 1 := by
  unfold countAlt
  simp only [setupHrefLang]
  rw [List.filter_append, List.length_append]
  rw [kept_filter_empty]
  · simp
  · intro n hqn
    simp at hqn
    exact ⟨hqn.1, by rw [hqn.2]; rfl⟩

/-- One call to `setupHrefLang` leaves exactly one `x-default` alternate. -/
theorem setupHrefLang_count_xdefault (path : String) (head : List HeadLink) :
    countAlt (setupHrefLang path head) "x-default" = 1 := by
  unfold countAlt
  simp only [setupHrefLang]
  rw [List.filter_append, List.length_append]
  rw [kept_filter_empty]
  · simp
  · intro n hqn
    simp at hqn
    exact ⟨hqn.1, by rw [hqn.2]; rfl⟩

/-- One call to `setupHrefLang` leaves exactly three alternates in total. -/
theorem setupHrefLang_count_total (path : String) (head : List HeadLink) :
    ((setupHrefLang path head).filter
      (fun n => n.rel = "alternate" && n.hreflang.isSome)).length = 3 := by
  simp only [setupHrefLang]
  rw [List.filter_append, List.length_append]
  rw [kept_filter_empty]
  · simp
  · intro n hqn
    simp at hqn
    exact ⟨hqn.1, by rw [hqn.2]⟩

/-- C9: `setupHrefLang` is idempotent on alternate links: after two successive
calls the head holds exactly one alternate link for each of `en`, `es` and
`x-default`, and exactly three alternates in total — no duplicates, because
every call first removes all previously injected alternates. -/
theorem setupHrefLang_idempotent_counts (path : String) (head : List HeadLink) :
    countAlt (setupHrefLang path (setupHrefLang path head)) "en" = 1
    ∧ countAlt (setupHrefLang path (setupHrefLang path head)) "es" = 1
    ∧ countAlt (setupHrefLang path (setupHrefLang path head)) "x-default" = 1
    ∧ ((setupHrefLang path (setupHrefLang path head)).filter
        (fun n => n.rel = "alternate" && n.hreflang.isSome)).length = 3 :=
  ⟨setupHrefLang_count_en path (setupHrefLang path head),
   setupHrefLang_count_es path (setupHrefLang path head),
   setupHrefLang_count_xdefault path (setupHrefLang path head),
   setupHrefLang_count_total path (setupHrefLang path head)⟩

/-- The fallback table's flat dotted keys are invisible to the segment fold of
`getTranslation`: the first key segment can contain no dot, while every
fallback key does. -/
theorem getTranslation_fallback_none (key : String) :
    getTranslation fallbackTranslations key = none := by
  unfold getTranslation
  obtain ⟨s, rest, hsplit, hnodot⟩ := jsSplit_head_no_dot key
  rw [hsplit]
  have h1 : "nav.home" ≠ s := by intro he; apply hnodot; rw [← he]; decide
  have h2 : "nav.audiograb" ≠ s := by
    intro he; apply hnodot; rw [← he]; decide
  have h3 : "nav.privacy" ≠ s := by intro he; apply hnodot; rw [← he]; decide
  simp only [List.foldl_cons, jsTruthyO, jvTruthy, jsIndexO, jsIndex, jsLookup,
    fallbackTranslations, if_true, h1, h2, h3, if_false]
  exact getTranslation_foldl_none rest

/-- C10: the built-in fallback table carries its three navigation labels as
flat dotted top-level keys, so `getTranslation` — which walks nested levels —
yields an absent result for them (indeed for every key), and consequently
`applyTranslations` leaves every element unchanged when only the fallback
table is loaded. -/
theorem fallback_table_keys_unreachable :
    hasKey fallbackTranslations "nav.home" = true
    ∧ hasKey fallbackTranslations "nav.audiograb" = true
    ∧ hasKey fallbackTranslations "nav.privacy" = true
    ∧ (∀ key : String, getTranslation fallbackTranslations key = none)
    ∧ (∀ elements : List Element,
        applyTranslations fallbackTranslations elements = elements) := by
  refine ⟨rfl, rfl, rfl, getTranslation_fallback_none, ?_⟩
  intro elements
  unfold applyTranslations
  have hc : ∀ e : Element, applyContentTranslation fallbackTranslations e = e := by
    intro e
    cases hk : e.dataI18n with
    | none => simp [applyContentTranslation, hk]
    | some key =>
      simp [applyContentTranslation, hk, getTranslation_fallback_none key,
        jsTruthyO]
  have htl : ∀ e : Element, applyTitleTranslation fallbackTranslations e = e := by
    intro e
    cases hk : e.dataI18nTitle with
    | none => simp [applyTitleTranslation, hk]
    | some key =>
      simp [applyTitleTranslation, hk, getTranslation_fallback_none key,
        jsTruthyO]
  simp [Function.comp_def, hc, htl]

end AudioGrabI18n
